import Mathlib

/-!
Shallow embedding of the core data model and operations of the `cbs`
multi-agent path-finding engine (Conflict-Based Search with Safe-Interval
Path Planning), together with theorems settling the specification claims.

The Rust sources embedded here are:
* `src/abstraction/search.rs` — `Solution`, `DifferentialHeuristic`,
  `SearchNode` (+ its `PartialEq`/`Ord` impls), `ConflictType`, `Conflict`
  (+ `Ord`), `LimitValues`, `Interval`, `Constraint` (+ `PartialEq`/`Ord`),
  `ConstraintSet::add`;
* `src/search/sipp/sipp.rs` — `SippState`, `SippTask::is_goal`,
  `SafeIntervalPathPlanning::{get_safe_intervals, get_collision_intervals}`;
* `src/search/sipp/lsipp.rs` — `SafeIntervalPathPlanningWithLandmarks::{solve,
  to_first_landmark, between_landmarks, to_goal, store_solution_parts,
  get_solution}`.

Rust's generic cost type `C` (with trait bound `Ord + LimitValues`) is
embedded as a type-class-constrained type parameter; `Arc<T>` sharing is
irrelevant to the values computed and is dropped; Rust `Option` maps to
`Option`; panicking operations (`unwrap` on `Option`) are embedded in the
`Option` monad, with `none` denoting a panic.
-/

namespace Cbs

/-- Rust trait `LimitValues`: minimum and maximum values of a cost type
(`search.rs`). -/
class LimitValues (C : Type) where
  min_value : C
  max_value : C

export LimitValues (min_value max_value)

/-- A concrete instantiation of the cost algebra used to evaluate the
generic definitions on concrete inputs (the Rust code is generic over any
ordered type with limit values; `Int` with these sentinels is one such). -/
instance : LimitValues Int where
  min_value := -1000000
  max_value := 1000000

/-- Rust struct `Interval<C>` (`search.rs`): a time interval with fields
`start` and `end` (the latter renamed `end_`, `end` being a Lean keyword). -/
structure Interval (C : Type) [LinearOrder C] [LimitValues C] where
  start : C
  end_ : C
  deriving DecidableEq

variable {C : Type} [LinearOrder C] [LimitValues C]

/-- `Interval::new(start, end)` (`search.rs`): stores the two endpoints,
with no check relating them. -/
def Interval.new (start end_ : C) : Interval C :=
  { start := start, end_ := end_ }

/-- `Interval::default()` (`search.rs`): `Interval::new(min_value, max_value)`. -/
def Interval.default : Interval C :=
  Interval.new min_value max_value

/-- Rust `#[derive(Ord)]` on `Interval`: lexicographic comparison of the
fields in declaration order (`start`, then `end`). -/
def Interval.cmp (a b : Interval C) : Ordering :=
  match compare a.start b.start with
  | Ordering.eq => compare a.end_ b.end_
  | o => o

/-- Rust `#[derive(PartialEq)]` on `Interval`: field-wise equality. -/
def Interval.beq (a b : Interval C) : Bool :=
  decide (a.start = b.start) && decide (a.end_ = b.end_)

/-- Rust struct `SearchNode<S, C, DC>` (`search.rs`). -/
structure SearchNode (S C DC : Type) where
  state : S
  cost : C
  heuristic : DC

/-- `impl PartialEq for SearchNode` (`search.rs`):
`self.cost + self.heuristic == other.cost + other.heuristic`. -/
def SearchNode.eq_ {S C DC : Type} [LinearOrder C] [HAdd C DC C]
    (a b : SearchNode S C DC) : Bool :=
  decide (a.cost + a.heuristic = b.cost + b.heuristic)

/-- `impl Ord for SearchNode` (`search.rs`): equal `cost + heuristic` sums
compare by `other.cost.cmp(&self.cost)`; otherwise by the sums. -/
def SearchNode.cmp {S C DC : Type} [LinearOrder C] [HAdd C DC C]
    (a b : SearchNode S C DC) : Ordering :=
  if a.cost + a.heuristic = b.cost + b.heuristic then
    compare b.cost a.cost
  else
    compare (a.cost + a.heuristic) (b.cost + b.heuristic)

/-- C8: `Interval::default()` is `[min_value, max_value]`, but `Interval::new`
stores its two endpoints unchecked, so the constructor does not establish the
invariant `start ≤ end`. -/
theorem interval_new_unchecked_default_full
    (s e : C) :
    (Interval.new s e).start = s ∧ (Interval.new s e).end_ = e ∧
      (Interval.default : Interval C) = Interval.new min_value max_value := by
  refine ⟨rfl, rfl, rfl⟩

/-- C8 counterexample: the `Interval` value built by `Interval::new(5, 3)`
(over the `Int` cost algebra) violates `start ≤ end`, refuting the claim
that every `Interval` value satisfies the invariant. -/
theorem interval_invariant_counterexample :
    ¬ ((Interval.new (5 : Int) 3).start ≤ (Interval.new (5 : Int) 3).end_) := by
  decide

/-- C5: `SearchNode` ordering: `a` compares less than `b` exactly when
`a.cost + a.heuristic < b.cost + b.heuristic`, or the two sums are equal
and `a.cost` is the larger (larger cost orders first). -/
theorem searchNode_cmp_lt_iff {S C DC : Type} [LinearOrder C] [HAdd C DC C]
    (a b : SearchNode S C DC) :
    SearchNode.cmp a b = Ordering.lt ↔
      (a.cost + a.heuristic < b.cost + b.heuristic ∨
        (a.cost + a.heuristic = b.cost + b.heuristic ∧ b.cost < a.cost)) := by
  unfold SearchNode.cmp
  by_cases h : a.cost + a.heuristic = b.cost + b.heuristic
  · rw [if_pos h, compare_lt_iff_lt]
    constructor
    · intro hlt
      exact Or.inr ⟨h, hlt⟩
    · intro hor
      rcases hor with hlt | ⟨_, hlt⟩
      · exact absurd h (ne_of_lt hlt)
      · exact hlt
  · rw [if_neg h, compare_lt_iff_lt]
    constructor
    · intro hlt
      exact Or.inl hlt
    · intro hor
      rcases hor with hlt | ⟨heq, _⟩
      · exact hlt
      · exact absurd heq h

/-- C10: `SearchNode` equality holds exactly when the `cost + heuristic`
sums agree, regardless of states and individual costs; hence two nodes with
equal sums but different costs are `==`-equal while their `cmp` is not
`Equal`. -/
theorem searchNode_eq_iff_sum_eq {S C DC : Type} [LinearOrder C] [HAdd C DC C]
    (a b : SearchNode S C DC) :
    (SearchNode.eq_ a b = true ↔ a.cost + a.heuristic = b.cost + b.heuristic) ∧
      (a.cost + a.heuristic = b.cost + b.heuristic → a.cost ≠ b.cost →
        SearchNode.eq_ a b = true ∧ SearchNode.cmp a b ≠ Ordering.eq) := by
  constructor
  · simp [SearchNode.eq_]
  · intro hsum hcost
    refine ⟨by simp [SearchNode.eq_, hsum], ?_⟩
    unfold SearchNode.cmp
    rw [if_pos hsum]
    rcases lt_or_gt_of_ne hcost with hlt | hgt
    · simp [compare_gt_iff_gt.mpr hlt]
    · simp [compare_lt_iff_lt.mpr hgt]

/-- C10 witness: two concrete nodes with equal `cost + heuristic` sums but
different costs are `==`-equal yet not `cmp`-equal. -/
theorem searchNode_eq_iff_sum_eq_witness :
    SearchNode.eq_ (⟨(), (3 : Int), (2 : Int)⟩ : SearchNode Unit Int Int)
        ⟨(), 5, 0⟩ = true ∧
      SearchNode.cmp (⟨(), (3 : Int), (2 : Int)⟩ : SearchNode Unit Int Int)
        ⟨(), 5, 0⟩ ≠ Ordering.eq :=
  (searchNode_eq_iff_sum_eq (⟨(), (3 : Int), (2 : Int)⟩ : SearchNode Unit Int Int)
    ⟨(), 5, 0⟩).2 (by decide) (by decide)

/-- The body of the `for` loop of `DifferentialHeuristic::get_heuristic`
(`search.rs`), folded over `pivots.iter().zip(heuristic_to_pivots.iter())`
with the running maximum `heuristic` as accumulator: a pivot equivalent to
the task's goal contributes `h(state)` when defined; any other pivot
contributes `(h2 - h1).max(h1 - h2)` when both `h1 = h(state)` and
`h2 = h(goal)` are defined. -/
def diffLoop {S DC : Type} [LinearOrder DC] [HSub DC DC DC]
    (equiv : S → S → Bool) (goal s : S) :
    List (S × (S → Option DC)) → DC → DC
  | [], heuristic => heuristic
  | (pivot, heuristic_to_pivot) :: rest, heuristic =>
    if equiv pivot goal then
      match heuristic_to_pivot s with
      | some h => diffLoop equiv goal s rest (max heuristic h)
      | none => diffLoop equiv goal s rest heuristic
    else
      match heuristic_to_pivot s, heuristic_to_pivot goal with
      | some h1, some h2 =>
          diffLoop equiv goal s rest (max (max heuristic (h2 - h1)) (h1 - h2))
      | _, _ => diffLoop equiv goal s rest heuristic

/-- `DifferentialHeuristic::get_heuristic` (`search.rs`): starts the running
maximum at the zero duration `C::default() - C::default()`, folds the loop
body over the zipped pivots and pivot heuristics, and wraps the result in
`Some`. The task's goal state and the `is_equivalent` predicate of the
state type are passed explicitly. -/
def DifferentialHeuristic.get_heuristic {S C DC : Type} [LinearOrder DC]
    [Inhabited C] [HSub C C DC] [HSub DC DC DC]
    (equiv : S → S → Bool) (goal : S) (pivots : List S)
    (heuristic_to_pivots : List (S → Option DC)) (s : S) : Option DC :=
  some (diffLoop equiv goal s (pivots.zip heuristic_to_pivots)
    ((default : C) - (default : C)))

/-- Whether the lookups that `get_heuristic` performs for one zipped
`(pivot, heuristic_to_pivot)` pair succeed: for a pivot equivalent to the
goal this is the single lookup at `s`; for other pivots both the lookup at
`s` and the one at the goal must succeed. -/
def pivotLookupSucceeds {S DC : Type} (equiv : S → S → Bool) (goal s : S)
    (ph : S × (S → Option DC)) : Bool :=
  if equiv ph.1 goal then (ph.2 s).isSome
  else (ph.2 s).isSome && (ph.2 goal).isSome

/-- C2: `get_heuristic` returns `None` only when every pivot lookup fails
(vacuously so: it always returns `Some`), and whenever at least one lookup
succeeds it returns the running maximum initialized to the zero duration
`C::default() - C::default()`. -/
theorem diff_heuristic_none_only_all_fail {S C DC : Type} [LinearOrder DC]
    [Inhabited C] [HSub C C DC] [HSub DC DC DC]
    (equiv : S → S → Bool) (goal : S) (pivots : List S)
    (heuristic_to_pivots : List (S → Option DC)) (s : S) :
    (DifferentialHeuristic.get_heuristic (C := C) equiv goal pivots
        heuristic_to_pivots s = none →
      ∀ ph ∈ pivots.zip heuristic_to_pivots,
        pivotLookupSucceeds equiv goal s ph = false) ∧
    ((∃ ph ∈ pivots.zip heuristic_to_pivots,
        pivotLookupSucceeds equiv goal s ph = true) →
      DifferentialHeuristic.get_heuristic (C := C) equiv goal pivots
        heuristic_to_pivots s =
        some (diffLoop equiv goal s (pivots.zip heuristic_to_pivots)
          ((default : C) - (default : C)))) := by
  constructor
  · intro h
    exact absurd h (by simp [DifferentialHeuristic.get_heuristic])
  · intro _
    rfl

/-- C2 witness: with one pivot equivalent to the goal whose lookup succeeds
with value 7, `get_heuristic` returns the running maximum `max 0 7 = 7`. -/
theorem diff_heuristic_none_only_all_fail_witness :
    DifferentialHeuristic.get_heuristic (C := Int)
      (fun a b => a == b) (0 : Nat) [0] [fun _ => some (7 : Int)] 1 =
      some 7 := by
  have h := (diff_heuristic_none_only_all_fail (C := Int)
    (fun a b => a == b) (0 : Nat) [0] [fun _ => some (7 : Int)] 1).2
    ⟨((0 : Nat), fun _ => some (7 : Int)), by simp,
      by simp [pivotLookupSucceeds]⟩
  simpa [diffLoop] using h

/-- Stated from the specification's words (§4.5), for comparison with the
source's `get_heuristic`: if some pivot is equivalent to the task's goal,
the maximum over the matching pivots of `h_i(s)`; otherwise the maximum
over all pivots with both lookups defined of `|h_i(s) - h_i(goal)|`. -/
def diffHeuristicSpec {S DC : Type} [LinearOrder DC] [HSub DC DC DC]
    (equiv : S → S → Bool) (goal : S) (pivots : List S)
    (heuristic_to_pivots : List (S → Option DC)) (s : S) : Option DC :=
  let pairs := pivots.zip heuristic_to_pivots
  if pairs.any (fun ph => equiv ph.1 goal) then
    ((pairs.filter (fun ph => equiv ph.1 goal)).filterMap
      (fun ph => ph.2 s)).max?
  else
    (pairs.filterMap (fun ph =>
      match ph.2 s, ph.2 goal with
      | some h1, some h2 => some (max (h2 - h1) (h1 - h2))
      | _, _ => none)).max?

/-- C4 counterexample: with pivot 0 equivalent to the goal (contribution
`h_0(s) = 1`) and pivot 1 not equivalent (contribution
`|h_1(s) - h_1(goal)| = 5`), the code returns the overall maximum `5`,
not the maximum over the matching pivots `1` demanded by the claim. -/
theorem diff_heuristic_branch_counterexample :
    ((([(0 : Nat), 1]).zip
        [fun _ => some (1 : Int),
          fun x => if x = 0 then some (5 : Int) else some 0]).any
      (fun ph => ph.1 == 0) = true) ∧
    DifferentialHeuristic.get_heuristic (C := Int)
      (fun a b => a == b) (0 : Nat) [0, 1]
      [fun _ => some (1 : Int), fun x => if x = 0 then some 5 else some 0]
      2 = some 5 ∧
    diffHeuristicSpec (fun a b => a == b) (0 : Nat) [0, 1]
      [fun _ => some (1 : Int), fun x => if x = 0 then some 5 else some 0]
      2 = some 1 ∧
    some (5 : Int) ≠ some (1 : Int) := by
  refine ⟨by decide, ?_, ?_, by decide⟩
  · simp [DifferentialHeuristic.get_heuristic, diffLoop]
  · simp [diffHeuristicSpec, List.filter, List.filterMap, List.max?]

/-- The contribution of one zipped `(pivot, heuristic_to_pivot)` pair to
`get_heuristic`'s running maximum, read off the loop body of the source:
`h(s)` for a pivot equivalent to the goal, `max (h2 - h1) (h1 - h2)` for
any other pivot with both lookups defined, nothing otherwise. -/
def pivotContribution {S DC : Type} [LinearOrder DC] [HSub DC DC DC]
    (equiv : S → S → Bool) (goal s : S) (ph : S × (S → Option DC)) :
    Option DC :=
  if equiv ph.1 goal then ph.2 s
  else
    match ph.2 s, ph.2 goal with
    | some h1, some h2 => some (max (h2 - h1) (h1 - h2))
    | _, _ => none

theorem diffLoop_eq_foldl {S DC : Type} [LinearOrder DC] [HSub DC DC DC]
    (equiv : S → S → Bool) (goal s : S)
    (l : List (S × (S → Option DC))) (acc : DC) :
    diffLoop equiv goal s l acc =
      List.foldl max acc (l.filterMap (pivotContribution equiv goal s)) := by
  induction l generalizing acc with
  | nil => rfl
  | cons ph rest ih =>
    obtain ⟨pivot, h⟩ := ph
    by_cases hequiv : equiv pivot goal
    · cases hs : h s with
      | none => simp [diffLoop, pivotContribution, hequiv, hs, ih]
      | some h1 => simp [diffLoop, pivotContribution, hequiv, hs, ih]
    · cases hs : h s with
      | none => simp [diffLoop, pivotContribution, hequiv, hs, ih]
      | some h1 =>
        cases hg : h goal with
        | none => simp [diffLoop, pivotContribution, hequiv, hs, hg, ih]
        | some h2 =>
          simp [diffLoop, pivotContribution, hequiv, hs, hg, ih, max_assoc]

/-- C4 amended: each pivot contributes independently — a pivot equivalent
to the task's goal contributes `h_i(s)` when defined, any other pivot
contributes `|h_i(s) - h_i(goal)|` when both lookups are defined — and
`get_heuristic` returns `Some` of the maximum of the zero duration and all
these contributions, mixing matching and non-matching pivots. -/
theorem diff_heuristic_max_of_contributions {S C DC : Type} [LinearOrder DC]
    [Inhabited C] [HSub C C DC] [HSub DC DC DC]
    (equiv : S → S → Bool) (goal : S) (pivots : List S)
    (heuristic_to_pivots : List (S → Option DC)) (s : S) :
    DifferentialHeuristic.get_heuristic (C := C) equiv goal pivots
        heuristic_to_pivots s =
      some (List.foldl max ((default : C) - (default : C))
        ((pivots.zip heuristic_to_pivots).filterMap
          (pivotContribution equiv goal s))) := by
  unfold DifferentialHeuristic.get_heuristic
  rw [diffLoop_eq_foldl]

/-- Rust struct `SippState<S>` (`sipp.rs`): a state extended with a safe
interval. -/
structure SippState (S C : Type) [LinearOrder C] [LimitValues C] where
  safe_interval : Interval C
  internal_state : S
  deriving DecidableEq

/-- Rust struct `Task` (declared in the crate root, used by `sipp.rs`):
initial and goal states of a single-agent search. -/
structure Task (S : Type) where
  initial_state : S
  goal_state : S

/-- Modelled from the spec: `Task::is_goal_state` is not under `src/` (only
its callers are); per §3 the state type's `is_equivalent` predicate is
"used for goal matching", so a state is a goal state when it is equivalent
to the task's goal state. -/
def Task.is_goal_state {S : Type} (equiv : S → S → Bool) (t : Task S)
    (s : S) : Bool :=
  equiv s t.goal_state

/-- Rust struct `SippTask<S>` (`sipp.rs`). -/
structure SippTask (S C : Type) [LinearOrder C] [LimitValues C] where
  initial_times : List C
  initial_states : List (SippState S C)
  goal_state : SippState S C
  internal_task : Task S

/-- `SippTask::is_goal` (`sipp.rs`, lines 434-441): the node's cost lies in
the goal state's safe interval and the node's internal state passes the
internal task's goal test. -/
def SippTask.is_goal {S C DC : Type} [LinearOrder C] [LimitValues C]
    (equiv : S → S → Bool) (t : SippTask S C)
    (state : SearchNode (SippState S C) C DC) : Bool :=
  decide (state.cost ≥ t.goal_state.safe_interval.start) &&
    decide (state.cost ≤ t.goal_state.safe_interval.end_) &&
    t.internal_task.is_goal_state equiv state.state.internal_state

/-- C6: generalized SIPP's goal test accepts a node exactly when its cost
lies within the SIPP goal state's admission interval and its internal state
is goal-equivalent to the task's goal state. -/
theorem sippTask_is_goal_iff {S C DC : Type} [LinearOrder C] [LimitValues C]
    (equiv : S → S → Bool) (t : SippTask S C)
    (state : SearchNode (SippState S C) C DC) :
    SippTask.is_goal equiv t state = true ↔
      (t.goal_state.safe_interval.start ≤ state.cost ∧
        state.cost ≤ t.goal_state.safe_interval.end_ ∧
        equiv state.state.internal_state t.internal_task.goal_state = true) := by
  simp [SippTask.is_goal, Task.is_goal_state, ge_iff_le, and_assoc]

/-- Rust enum `ConflictType` (`search.rs`), in declaration order. -/
inductive ConflictType
  | Frozen
  | Cardinal
  | SemiCardinal
  | NonCardinal
  deriving DecidableEq

/-- The discriminant of a `ConflictType`, following declaration order. -/
def ConflictType.toNat : ConflictType → Nat
  | ConflictType.Frozen => 0
  | ConflictType.Cardinal => 1
  | ConflictType.SemiCardinal => 2
  | ConflictType.NonCardinal => 3

/-- Rust `#[derive(Ord)]` on `ConflictType`: compares discriminants in
declaration order. -/
def ConflictType.cmp (a b : ConflictType) : Ordering :=
  compare a.toNat b.toNat

/-- Modelled from the spec: the struct `Move` is declared in the crate root,
which is not under `src/`; per §3 it is
`{agent, from, to, action, interval}` where the interval spans the move's
departure to its arrival. -/
structure Move (S A C : Type) [LinearOrder C] [LimitValues C] where
  agent : Nat
  from_ : S
  to_ : S
  action : A
  interval : Interval C

/-- Modelled from the spec: `Conflict`'s comparators in `search.rs` read a
`time` field of `Move`, whose declaration is not under `src/`; per §3 the
move's interval runs from departure to arrival, so the departure time is
`interval.start`. -/
def Move.time {S A C : Type} [LinearOrder C] [LimitValues C]
    (m : Move S A C) : C :=
  m.interval.start

/-- Rust struct `Conflict<S, A, C, DC>` (`search.rs`). -/
structure Conflict (S A C : Type) [LinearOrder C] [LimitValues C] where
  moves : Move S A C × Move S A C
  type_ : ConflictType

/-- `impl Ord for Conflict` (`search.rs`, lines 235-250): equal conflict
types compare by the minimum of the two moves' times; different types
compare by the derived `ConflictType` order. -/
def Conflict.cmp {S A C : Type} [LinearOrder C] [LimitValues C]
    (a b : Conflict S A C) : Ordering :=
  if a.type_ = b.type_ then
    compare (min a.moves.1.time a.moves.2.time)
      (min b.moves.1.time b.moves.2.time)
  else
    ConflictType.cmp a.type_ b.type_

/-- C7: conflicts order primarily by type — `Frozen` before `Cardinal`
before `SemiCardinal` before `NonCardinal`, so a min-ordered queue pops the
higher-priority type first — and, for equal types, by the minimum of the
two moves' interval starts, ascending. -/
theorem conflict_cmp_characterization {S A C : Type} [LinearOrder C]
    [LimitValues C] (a b : Conflict S A C) :
    (ConflictType.cmp ConflictType.Frozen ConflictType.Cardinal =
        Ordering.lt ∧
      ConflictType.cmp ConflictType.Cardinal ConflictType.SemiCardinal =
        Ordering.lt ∧
      ConflictType.cmp ConflictType.SemiCardinal ConflictType.NonCardinal =
        Ordering.lt) ∧
    (a.type_ ≠ b.type_ →
      Conflict.cmp a b = ConflictType.cmp a.type_ b.type_) ∧
    (a.type_ = b.type_ →
      Conflict.cmp a b =
        compare (min a.moves.1.interval.start a.moves.2.interval.start)
          (min b.moves.1.interval.start b.moves.2.interval.start)) := by
  refine ⟨⟨by decide, by decide, by decide⟩, ?_, ?_⟩
  · intro h
    simp [Conflict.cmp, h]
  · intro h
    simp [Conflict.cmp, h, Move.time]

/-- C7 witness: two concrete same-type conflicts compare by the minimum
interval start of their moves (`min 3 5 = 3` against `min 4 2 = 2`). -/
theorem conflict_cmp_characterization_witness :
    Conflict.cmp
      (⟨(⟨0, 0, 0, 0, Interval.new (3 : Int) 4⟩,
          ⟨0, 0, 0, 0, Interval.new (5 : Int) 6⟩),
        ConflictType.Cardinal⟩ : Conflict Nat Nat Int)
      ⟨(⟨0, 0, 0, 0, Interval.new (4 : Int) 5⟩,
          ⟨0, 0, 0, 0, Interval.new (2 : Int) 3⟩),
        ConflictType.Cardinal⟩ = Ordering.gt := by
  rw [(conflict_cmp_characterization
    (⟨(⟨0, 0, 0, 0, Interval.new (3 : Int) 4⟩,
        ⟨0, 0, 0, 0, Interval.new (5 : Int) 6⟩),
      ConflictType.Cardinal⟩ : Conflict Nat Nat Int)
    ⟨(⟨0, 0, 0, 0, Interval.new (4 : Int) 5⟩,
        ⟨0, 0, 0, 0, Interval.new (2 : Int) 3⟩),
      ConflictType.Cardinal⟩).2.2 rfl]
  decide

/-- Rust enum `ConstraintType` (`search.rs`). -/
inductive ConstraintType
  | State
  | Action
  deriving DecidableEq

/-- Rust struct `Constraint<S, C>` (`search.rs`). -/
structure Constraint (S C : Type) [LinearOrder C] [LimitValues C] where
  agent : Nat
  state : S
  next : Option S
  interval : Interval C
  type_ : ConstraintType

variable {S : Type}

/-- `Constraint::new_state_constraint` (`search.rs`). -/
def Constraint.new_state_constraint (agent : Nat) (state : S)
    (interval : Interval C) : Constraint S C :=
  { agent := agent, state := state, next := none, interval := interval,
    type_ := ConstraintType.State }

/-- `Constraint::new_action_constraint` (`search.rs`). -/
def Constraint.new_action_constraint (agent : Nat) (state next : S)
    (interval : Interval C) : Constraint S C :=
  { agent := agent, state := state, next := some next, interval := interval,
    type_ := ConstraintType.Action }

/-- `impl PartialEq for Constraint` (`search.rs`):
`self.interval == other.interval`. -/
def Constraint.eq_ (c1 c2 : Constraint S C) : Bool :=
  Interval.beq c1.interval c2.interval

/-- `impl Ord for Constraint` (`search.rs`):
`self.interval.cmp(&other.interval)`. -/
def Constraint.cmp (c1 c2 : Constraint S C) : Ordering :=
  Interval.cmp c1.interval c2.interval

/-- Rust `BTreeSet<Arc<Constraint>>::insert`, with the bucket kept as a list
sorted strictly ascending by `Constraint`'s `Ord`: walking the sorted list,
a `Less` comparison inserts in front, an `Equal` comparison keeps the set
unmodified (the original element is retained and the new constraint
discarded), and a `Greater` comparison recurses. -/
def btreeInsert (c : Constraint S C) : List (Constraint S C) →
    List (Constraint S C)
  | [] => [c]
  | x :: xs =>
    match Constraint.cmp c x with
    | Ordering.lt => c :: x :: xs
    | Ordering.eq => x :: xs
    | Ordering.gt => x :: btreeInsert c xs

/-- Rust struct `ConstraintSet<S, C>` (`search.rs`): the two `HashMap`s are
embedded as total functions from keys to buckets, an absent key being the
empty bucket. The key of `action_constraints` is embedded as
`(state, next)` with `next : Option S` — the source keys on
`(state, next.unwrap())`, and every `Action` constraint built by
`new_action_constraint` has `next = Some(..)`. -/
structure ConstraintSet (S C : Type) [LinearOrder C] [LimitValues C] where
  state_constraints : S → List (Constraint S C)
  action_constraints : S × Option S → List (Constraint S C)

/-- `ConstraintSet::default()` (`search.rs`): both maps empty. -/
def ConstraintSet.empty : ConstraintSet S C :=
  { state_constraints := fun _ => [], action_constraints := fun _ => [] }

/-- `ConstraintSet::add` (`search.rs`, lines 394-412): insert the
constraint into the bucket selected by its type and key. -/
def ConstraintSet.add [DecidableEq S] (cs : ConstraintSet S C)
    (c : Constraint S C) : ConstraintSet S C :=
  match c.type_ with
  | ConstraintType.State =>
    { cs with
      state_constraints := fun s =>
        if s = c.state then btreeInsert c (cs.state_constraints c.state)
        else cs.state_constraints s }
  | ConstraintType.Action =>
    { cs with
      action_constraints := fun k =>
        if k = (c.state, c.next) then
          btreeInsert c (cs.action_constraints (c.state, c.next))
        else cs.action_constraints k }

/-- A `ConstraintSet` built by a sequence of `add` calls starting from the
empty set, mirroring how the program populates its constraint sets. -/
def ConstraintSet.ofList [DecidableEq S] (l : List (Constraint S C)) :
    ConstraintSet S C :=
  l.foldl ConstraintSet.add ConstraintSet.empty

/-- Every bucket of the set is strictly sorted by `Constraint`'s `Ord`,
the representation invariant of the Rust `BTreeSet` buckets. -/
def ConstraintSet.SortedBuckets (cs : ConstraintSet S C) : Prop :=
  (∀ s, (cs.state_constraints s).Pairwise
      (fun a b => Constraint.cmp a b = Ordering.lt)) ∧
  (∀ k, (cs.action_constraints k).Pairwise
      (fun a b => Constraint.cmp a b = Ordering.lt))

theorem interval_cmp_lt_iff (a b : Interval C) :
    Interval.cmp a b = Ordering.lt ↔
      (a.start < b.start ∨ (a.start = b.start ∧ a.end_ < b.end_)) := by
  unfold Interval.cmp
  rcases h : compare a.start b.start with _ | _ | _
  · rw [compare_lt_iff_lt] at h
    simp [h, ne_of_lt h]
  · rw [compare_eq_iff_eq] at h
    simp [h, compare_lt_iff_lt]
  · rw [compare_gt_iff_gt] at h
    simp [not_lt_of_gt h, ne_of_gt h]

theorem interval_cmp_eq_iff (a b : Interval C) :
    Interval.cmp a b = Ordering.eq ↔ a = b := by
  unfold Interval.cmp
  rcases h : compare a.start b.start with _ | _ | _
  · rw [compare_lt_iff_lt] at h
    constructor
    · intro hc
      exact absurd hc (by simp)
    · intro hc
      exact absurd (congrArg Interval.start hc) (ne_of_lt h)
  · rw [compare_eq_iff_eq] at h
    constructor
    · intro hc
      rw [compare_eq_iff_eq] at hc
      cases a
      cases b
      simp_all
    · intro hc
      subst hc
      exact compare_eq_iff_eq.mpr rfl
  · rw [compare_gt_iff_gt] at h
    constructor
    · intro hc
      exact absurd hc (by simp)
    · intro hc
      exact absurd (congrArg Interval.start hc) (ne_of_gt h)

theorem interval_cmp_gt_iff' (a b : Interval C) :
    Interval.cmp a b = Ordering.gt ↔
      (b.start < a.start ∨ (b.start = a.start ∧ b.end_ < a.end_)) := by
  unfold Interval.cmp
  rcases h : compare a.start b.start with _ | _ | _
  · rw [compare_lt_iff_lt] at h
    simp [lt_asymm h, (ne_of_lt h).symm]
  · rw [compare_eq_iff_eq] at h
    simp [h, compare_gt_iff_gt]
  · rw [compare_gt_iff_gt] at h
    simp [h]

theorem interval_cmp_gt_iff (a b : Interval C) :
    Interval.cmp a b = Ordering.gt ↔ Interval.cmp b a = Ordering.lt := by
  rw [interval_cmp_gt_iff', interval_cmp_lt_iff]

theorem interval_cmp_lt_trans {a b d : Interval C}
    (h1 : Interval.cmp a b = Ordering.lt)
    (h2 : Interval.cmp b d = Ordering.lt) :
    Interval.cmp a d = Ordering.lt := by
  rw [interval_cmp_lt_iff] at h1 h2 ⊢
  rcases h1 with h1 | ⟨h1e, h1l⟩
  · rcases h2 with h2 | ⟨h2e, _⟩
    · exact Or.inl (lt_trans h1 h2)
    · exact Or.inl (h2e ▸ h1)
  · rcases h2 with h2 | ⟨h2e, h2l⟩
    · exact Or.inl (h1e ▸ h2)
    · exact Or.inr ⟨h1e.trans h2e, lt_trans h1l h2l⟩

theorem interval_beq_iff (a b : Interval C) :
    Interval.beq a b = true ↔ a = b := by
  unfold Interval.beq
  cases a
  cases b
  simp [Interval.mk.injEq]

theorem btreeInsert_subset {c x : Constraint S C} {l : List (Constraint S C)}
    (h : x ∈ btreeInsert c l) : x = c ∨ x ∈ l := by
  induction l with
  | nil =>
    simp [btreeInsert] at h
    exact Or.inl h
  | cons y ys ih =>
    rcases hc : Constraint.cmp c y with _ | _ | _
    · simp only [btreeInsert, hc, List.mem_cons] at h
      rcases h with h | h | h
      · exact Or.inl h
      · exact Or.inr (List.mem_cons.mpr (Or.inl h))
      · exact Or.inr (List.mem_cons.mpr (Or.inr h))
    · simp only [btreeInsert, hc, List.mem_cons] at h
      exact Or.inr (List.mem_cons.mpr h)
    · simp only [btreeInsert, hc, List.mem_cons] at h
      rcases h with h | h
      · exact Or.inr (List.mem_cons.mpr (Or.inl h))
      · rcases ih h with h' | h'
        · exact Or.inl h'
        · exact Or.inr (List.mem_cons.mpr (Or.inr h'))

theorem btreeInsert_pairwise {c : Constraint S C} {l : List (Constraint S C)}
    (h : l.Pairwise (fun a b => Constraint.cmp a b = Ordering.lt)) :
    (btreeInsert c l).Pairwise
      (fun a b => Constraint.cmp a b = Ordering.lt) := by
  induction l with
  | nil => simp [btreeInsert]
  | cons y ys ih =>
    rw [List.pairwise_cons] at h
    obtain ⟨hy, hys⟩ := h
    unfold btreeInsert
    rcases hc : Constraint.cmp c y with _ | _ | _
    · refine List.Pairwise.cons ?_ (List.Pairwise.cons hy hys)
      intro z hz
      rcases List.mem_cons.mp hz with hz | hz
      · exact hz ▸ hc
      · exact interval_cmp_lt_trans hc (hy z hz)
    · exact List.Pairwise.cons hy hys
    · refine List.Pairwise.cons ?_ (ih hys)
      intro z hz
      rcases btreeInsert_subset hz with hz | hz
      · subst hz
        unfold Constraint.cmp at hc ⊢
        exact (interval_cmp_gt_iff _ _).mp hc
      · exact hy z hz

theorem btreeInsert_of_mem_eq {c x : Constraint S C}
    {l : List (Constraint S C)}
    (hs : l.Pairwise (fun a b => Constraint.cmp a b = Ordering.lt))
    (hx : x ∈ l) (heq : Constraint.cmp c x = Ordering.eq) :
    btreeInsert c l = l := by
  induction l with
  | nil => cases hx
  | cons y ys ih =>
    rw [List.pairwise_cons] at hs
    obtain ⟨hy, hys⟩ := hs
    unfold btreeInsert
    rcases hc : Constraint.cmp c y with _ | _ | _
    · exfalso
      rcases List.mem_cons.mp hx with hx | hx
      · subst hx
        rw [hc] at heq
        cases heq
      · have hyx := hy x hx
        unfold Constraint.cmp at hc heq hyx
        rw [interval_cmp_eq_iff] at heq
        rw [heq] at hc
        rw [interval_cmp_lt_iff] at hc hyx
        rcases hc with hc | ⟨hce, hcl⟩
        · rcases hyx with hyx | ⟨hye, _⟩
          · exact absurd (lt_trans hc hyx) (lt_irrefl _)
          · exact absurd (hye ▸ hc) (lt_irrefl _)
        · rcases hyx with hyx | ⟨hye, hyl⟩
          · exact absurd (hce ▸ hyx) (lt_irrefl _)
          · exact absurd (lt_trans hcl hyl) (lt_irrefl _)
    · rfl
    · rcases List.mem_cons.mp hx with hx | hx
      · subst hx
        rw [hc] at heq
        cases heq
      · rw [ih hys hx]

theorem sortedBuckets_empty : (ConstraintSet.empty : ConstraintSet S C).SortedBuckets := by
  exact ⟨fun _ => List.Pairwise.nil, fun _ => List.Pairwise.nil⟩

theorem sortedBuckets_add [DecidableEq S] {cs : ConstraintSet S C}
    (h : cs.SortedBuckets) (c : Constraint S C) :
    (cs.add c).SortedBuckets := by
  obtain ⟨hstate, haction⟩ := h
  unfold ConstraintSet.add
  rcases c.type_ with _ | _
  · refine ⟨fun s => ?_, haction⟩
    by_cases hs : s = c.state
    · simp only [hs, if_pos rfl]
      exact btreeInsert_pairwise (hstate c.state)
    · simp only [if_neg hs]
      exact hstate s
  · refine ⟨hstate, fun k => ?_⟩
    by_cases hk : k = (c.state, c.next)
    · simp only [hk, if_pos rfl]
      exact btreeInsert_pairwise (haction (c.state, c.next))
    · simp only [if_neg hk]
      exact haction k

theorem sortedBuckets_ofList [DecidableEq S] (l : List (Constraint S C)) :
    (ConstraintSet.ofList l).SortedBuckets := by
  unfold ConstraintSet.ofList
  induction l using List.reverseRecOn with
  | nil => exact sortedBuckets_empty
  | append_singleton xs x ih =>
    rw [List.foldl_append, List.foldl_cons, List.foldl_nil]
    exact sortedBuckets_add ih x

theorem add_unchanged_of_dup_interval [DecidableEq S]
    {cs : ConstraintSet S C} {c : Constraint S C}
    (hsorted : cs.SortedBuckets)
    (hdup : (c.type_ = ConstraintType.State ∧
        ∃ x ∈ cs.state_constraints c.state, x.interval = c.interval) ∨
      (c.type_ = ConstraintType.Action ∧
        ∃ x ∈ cs.action_constraints (c.state, c.next),
          x.interval = c.interval)) :
    cs.add c = cs := by
  obtain ⟨hstate, haction⟩ := hsorted
  rcases hdup with ⟨htype, x, hx, hint⟩ | ⟨htype, x, hx, hint⟩
  · unfold ConstraintSet.add
    rw [htype]
    have hins : btreeInsert c (cs.state_constraints c.state) =
        cs.state_constraints c.state := by
      refine btreeInsert_of_mem_eq (hstate c.state) hx ?_
      unfold Constraint.cmp
      rw [interval_cmp_eq_iff]
      exact hint.symm
    cases cs
    simp only [ConstraintSet.mk.injEq, and_true]
    funext s
    by_cases hs : s = c.state
    · simp only [hs, if_pos rfl]
      exact hins
    · simp only [if_neg hs]
  · unfold ConstraintSet.add
    rw [htype]
    have hins : btreeInsert c (cs.action_constraints (c.state, c.next)) =
        cs.action_constraints (c.state, c.next) := by
      refine btreeInsert_of_mem_eq (haction (c.state, c.next)) hx ?_
      unfold Constraint.cmp
      rw [interval_cmp_eq_iff]
      exact hint.symm
    cases cs
    simp only [ConstraintSet.mk.injEq, true_and]
    funext k
    by_cases hk : k = (c.state, c.next)
    · simp only [hk, if_pos rfl]
      exact hins
    · simp only [if_neg hk]

/-- C9: `Constraint` equality and ordering depend only on the interval;
adding a constraint whose interval duplicates one already in its bucket
leaves the set unchanged; and every bucket of a set built by `add` calls
holds at most one constraint per distinct interval. -/
theorem constraint_interval_keyed [DecidableEq S] :
    (∀ (c1 c2 : Constraint S C),
      (Constraint.eq_ c1 c2 = true ↔ c1.interval = c2.interval) ∧
      Constraint.cmp c1 c2 = Interval.cmp c1.interval c2.interval) ∧
    (∀ (cs : ConstraintSet S C) (c : Constraint S C),
      cs.SortedBuckets →
      ((c.type_ = ConstraintType.State ∧
          ∃ x ∈ cs.state_constraints c.state, x.interval = c.interval) ∨
        (c.type_ = ConstraintType.Action ∧
          ∃ x ∈ cs.action_constraints (c.state, c.next),
            x.interval = c.interval)) →
      cs.add c = cs) ∧
    (∀ l : List (Constraint S C), (ConstraintSet.ofList l).SortedBuckets) ∧
    (∀ l : List (Constraint S C),
      (∀ s, ((ConstraintSet.ofList l).state_constraints s).Pairwise
          (fun a b => a.interval ≠ b.interval)) ∧
      (∀ k, ((ConstraintSet.ofList l).action_constraints k).Pairwise
          (fun a b => a.interval ≠ b.interval))) := by
  have hlt_ne : ∀ (a b : Constraint S C),
      Constraint.cmp a b = Ordering.lt → a.interval ≠ b.interval := by
    intro a b hab hint
    unfold Constraint.cmp at hab
    rw [hint] at hab
    have hself : Interval.cmp b.interval b.interval = Ordering.eq :=
      (interval_cmp_eq_iff _ _).mpr rfl
    exact absurd (hself.symm.trans hab) (by decide)
  refine ⟨?_, fun cs c hs hd => add_unchanged_of_dup_interval hs hd,
    sortedBuckets_ofList, ?_⟩
  · intro c1 c2
    exact ⟨interval_beq_iff c1.interval c2.interval, rfl⟩
  · intro l
    obtain ⟨hstate, haction⟩ := sortedBuckets_ofList (S := S) (C := C) l
    exact ⟨fun s => (hstate s).imp (hlt_ne _ _),
      fun k => (haction k).imp (hlt_ne _ _)⟩

/-- C9 witness: adding a second state constraint with the same interval
`[1, 2]` (but a different agent) to the bucket of state `5` leaves the
constraint set unchanged. -/
theorem constraint_interval_keyed_witness :
    (ConstraintSet.ofList
        [Constraint.new_state_constraint 0 (5 : Nat)
          (Interval.new (1 : Int) 2)]).add
      (Constraint.new_state_constraint 7 5 (Interval.new 1 2)) =
    ConstraintSet.ofList
      [Constraint.new_state_constraint 0 (5 : Nat)
        (Interval.new (1 : Int) 2)] := by
  refine (constraint_interval_keyed (S := Nat) (C := Int)).2.1 _ _
    ((constraint_interval_keyed (S := Nat) (C := Int)).2.2.1 _) ?_
  refine Or.inl ⟨rfl,
    ⟨Constraint.new_state_constraint 0 (5 : Nat) (Interval.new (1 : Int) 2),
      ?_, rfl⟩⟩
  show _ ∈ ConstraintSet.state_constraints _ _
  simp [ConstraintSet.ofList, ConstraintSet.empty, ConstraintSet.add,
    Constraint.new_state_constraint, btreeInsert]

/-- `SafeIntervalPathPlanning::get_safe_intervals` (`sipp.rs`, lines
315-317): ignores its state argument and returns the single default
interval. -/
def SafeIntervalPathPlanning.get_safe_intervals (_state : S) :
    List (Interval C) :=
  [Interval.default]

/-- `SafeIntervalPathPlanning::get_collision_intervals` (`sipp.rs`, lines
319-321): ignores its action argument and returns no intervals. -/
def SafeIntervalPathPlanning.get_collision_intervals {A : Type}
    (_action : A) : List (Interval C) :=
  []

/-- Modelled from the spec: sorting forbidden intervals by interval start
(§4.7 asks for the state constraints sorted by interval start); insertion
step. -/
def insertByStart (i : Interval C) : List (Interval C) → List (Interval C)
  | [] => [i]
  | j :: rest =>
    if i.start ≤ j.start then i :: j :: rest else j :: insertByStart i rest

/-- Modelled from the spec: insertion sort of forbidden intervals by
interval start. -/
def sortByStart : List (Interval C) → List (Interval C)
  | [] => []
  | i :: rest => insertByStart i (sortByStart rest)

/-- Modelled from the spec: merging overlapping forbidden intervals (§4.7),
assuming the input is sorted by interval start. -/
def mergeForbidden : List (Interval C) → List (Interval C)
  | [] => []
  | [i] => [i]
  | i :: j :: rest =>
    if j.start ≤ i.end_ then
      mergeForbidden (Interval.new i.start (max i.end_ j.end_) :: rest)
    else i :: mergeForbidden (j :: rest)
termination_by l => l.length

/-- Modelled from the spec: the complement of a sorted, disjoint list of
forbidden intervals within `[lo, hi]` (§4.7). -/
def complementWithin (lo hi : C) : List (Interval C) → List (Interval C)
  | [] => if lo ≤ hi then [Interval.new lo hi] else []
  | f :: rest =>
    (if lo < f.start then [Interval.new lo f.start] else []) ++
      complementWithin f.end_ hi rest

/-- Modelled from the spec: the derivation of safe intervals for a state
(§4.7), which is absent from the `sipp.rs` variant under `src/` (its
`get_safe_intervals` is a stub): sort the state constraints on `s` by
interval start, merge overlapping forbidden intervals, and return the
complement within `[min_value, max_value]`. -/
def safe_intervals_from_spec [DecidableEq S]
    (constraints : ConstraintSet S C) (s : S) : List (Interval C) :=
  complementWithin min_value max_value
    (mergeForbidden (sortByStart
      ((constraints.state_constraints s).map (fun c => c.interval))))

/-- C1: the `get_safe_intervals` under `src/` returns the single full
default interval for every state, even for a state carrying the forbidden
interval `[2, 3]`, where the specified derivation returns the two-interval
complement — the code diverges from the claimed behavior. -/
theorem get_safe_intervals_stub_diverges :
    SafeIntervalPathPlanning.get_safe_intervals (C := Int) (0 : Nat) =
      [Interval.default] ∧
    safe_intervals_from_spec
      (ConstraintSet.ofList
        [Constraint.new_state_constraint 0 (0 : Nat)
          (Interval.new (2 : Int) 3)]) 0 =
      [Interval.new (-1000000) 2, Interval.new 3 1000000] ∧
    SafeIntervalPathPlanning.get_safe_intervals (C := Int) (0 : Nat) ≠
      safe_intervals_from_spec
        (ConstraintSet.ofList
          [Constraint.new_state_constraint 0 (0 : Nat)
            (Interval.new (2 : Int) 3)]) 0 := by
  refine ⟨rfl, ?_, ?_⟩ <;>
    simp [safe_intervals_from_spec, ConstraintSet.ofList, ConstraintSet.empty,
      ConstraintSet.add, Constraint.new_state_constraint, btreeInsert,
      sortByStart, insertByStart, mergeForbidden, complementWithin,
      SafeIntervalPathPlanning.get_safe_intervals, Interval.default,
      Interval.new, min_value, max_value]

/-- Modelled from the spec: the `Solution` variant consumed by `lsipp.rs`
(steps paired with arrival costs, actions, and a total cost) is declared in
a part of the crate that is not under `src/` (the `search.rs` under `src/`
holds an older variant with parallel `states`/`costs`/`actions` vectors);
its fields are read off `lsipp.rs`'s uses: `solution.steps` (pairs of a
SIPP state and an arrival cost), `solution.actions`, `solution.cost`. -/
structure Solution (S A C : Type) [LinearOrder C] [LimitValues C] where
  steps : List (SippState S C × C)
  actions : List A
  cost : C

/-- The mutable search state of
`SafeIntervalPathPlanningWithLandmarks` (`lsipp.rs`): the last segment's
solutions, the stored solution parts keyed by `(landing step, landmark
index)` (an `FxHashMap`, embedded as an association list), and the landing
states and times that seed the next segment. The embedded `sipp` solver and
the statistics are not part of the claim. -/
structure SafeIntervalPathPlanningWithLandmarks (S A C : Type)
    [LinearOrder C] [LimitValues C] where
  solutions : List (Solution S A C)
  solution_parts :
    List (((SippState S C × C) × Nat) × Solution S A C)
  landmark_states : List (SippState S C)
  landmark_times : List C

/-- `HashMap::insert`: replace the binding of the key if present, append it
otherwise. -/
def mapInsert {K V : Type} [DecidableEq K] (k : K) (v : V) :
    List (K × V) → List (K × V)
  | [] => [(k, v)]
  | (k', v') :: rest =>
    if k' = k then (k, v) :: rest else (k', v') :: mapInsert k v rest

/-- `HashMap::remove`: return the removed binding's value (if any) and the
remaining map. -/
def mapRemove {K V : Type} [DecidableEq K] (k : K) :
    List (K × V) → Option V × List (K × V)
  | [] => (none, [])
  | (k', v') :: rest =>
    if k' = k then (some v', rest)
    else
      let r := mapRemove k rest
      (r.1, (k', v') :: r.2)

/-- Modelled from the spec: the generalized SIPP solver invoked by
`lsipp.rs` (`SafeIntervalPathPlanning::{solve, to_generalized,
solve_generalized}` in the `Solution`-with-`steps` variant) is not under
`src/` — the `sipp.rs` under `src/` is an earlier, incompatible variant.
It is embedded as an oracle: `solveSingle` is the plain `sipp.solve` call
of the landmark-free branch; `firstSegment` is `to_generalized` followed by
`solve_generalized` for the segment to the first landmark (`none` when
`to_generalized` finds no safe interval for the start); `nextSegment i`
is `solve_generalized` for segment `i` (between landmarks for
`1 ≤ i ≤ k-1`, last landmark to goal for `i = k`), fed the drained landing
times and states of the previous segment. -/
structure SippOracle (S A C : Type) [LinearOrder C] [LimitValues C] where
  solveSingle : Option (Solution S A C)
  firstSegment : Option (List (Solution S A C))
  nextSegment : Nat → List C → List (SippState S C) →
    List (Solution S A C)

variable {A : Type}

/-- Modelled from the spec: properties §4.7 guarantees of any generalized
SIPP run, used as hypotheses about the oracle — solution reconstruction
walks parent pointers from a goal node, so every returned solution has at
least one step, and a search seeded with no initial states finds no
paths. -/
def SippOracle.WF (oracle : SippOracle S A C) : Prop :=
  (∀ sols, oracle.firstSegment = some sols → ∀ sol ∈ sols, sol.steps ≠ []) ∧
  (∀ i t s, ∀ sol ∈ oracle.nextSegment i t s, sol.steps ≠ []) ∧
  (∀ i, oracle.nextSegment i [] [] = [])

/-- `store_solution_parts` (`lsipp.rs`, lines 198-206): drain the segment's
solutions; for each, record its landing state and cost and file the
solution under `(landing step, landmark)`. The `unwrap` of
`solution.steps.last()` is embedded in the `Option` monad (`none` is a
panic). -/
def store_solution_parts [DecidableEq S] (landmark : Nat)
    (st : SafeIntervalPathPlanningWithLandmarks S A C) :
    Option (SafeIntervalPathPlanningWithLandmarks S A C) :=
  st.solutions.foldlM
    (fun acc sol =>
      match sol.steps.getLast? with
      | none => none
      | some last =>
        some { acc with
          landmark_states := acc.landmark_states ++ [last.1],
          landmark_times := acc.landmark_times ++ [sol.cost],
          solution_parts :=
            mapInsert (last, landmark) sol acc.solution_parts })
    { st with solutions := [] }

/-- `to_first_landmark` (`lsipp.rs`, lines 122-145): if `to_generalized`
fails the method returns with the state unchanged; otherwise the segment's
solutions are stored as parts for landmark 0. -/
def to_first_landmark [DecidableEq S] (oracle : SippOracle S A C)
    (st : SafeIntervalPathPlanningWithLandmarks S A C) :
    Option (SafeIntervalPathPlanningWithLandmarks S A C) :=
  match oracle.firstSegment with
  | none => some st
  | some sols => store_solution_parts 0 { st with solutions := sols }

/-- One iteration of the loop of `between_landmarks` (`lsipp.rs`, lines
148-172): drain the landing times and states into the next segment's
configuration, solve it, and store the results as parts for landmark `i`. -/
def between_landmarks_step [DecidableEq S] (oracle : SippOracle S A C)
    (st : SafeIntervalPathPlanningWithLandmarks S A C) (i : Nat) :
    Option (SafeIntervalPathPlanningWithLandmarks S A C) :=
  store_solution_parts i
    { st with
      landmark_times := []
      landmark_states := []
      solutions :=
        oracle.nextSegment i st.landmark_times st.landmark_states }

/-- `between_landmarks` (`lsipp.rs`): the loop body for
`i in 1 .. k-1` where `k` is the number of landmarks. -/
def between_landmarks [DecidableEq S] (oracle : SippOracle S A C) (k : Nat)
    (st : SafeIntervalPathPlanningWithLandmarks S A C) :
    Option (SafeIntervalPathPlanningWithLandmarks S A C) :=
  (List.range' 1 (k - 1)).foldlM (between_landmarks_step oracle) st

/-- `to_goal` (`lsipp.rs`, lines 175-195): drain the landing times and
states and solve the final segment (index `k`) to the goal. -/
def to_goal (oracle : SippOracle S A C) (k : Nat)
    (st : SafeIntervalPathPlanningWithLandmarks S A C) :
    SafeIntervalPathPlanningWithLandmarks S A C :=
  { st with
    landmark_times := []
    landmark_states := []
    solutions :=
      oracle.nextSegment k st.landmark_times st.landmark_states }

/-- The stitching loop of `get_solution` (`lsipp.rs`, lines 221-240), over
`landmark = k, k-1, …, 0`: drain the current part's steps and actions in
reverse into the accumulators; while `landmark > 0`, look up the next part
under `(last pushed step, landmark - 1)` — removing it from the map — and
drop the duplicated junction step. The two `unwrap`s are embedded in the
`Option` monad (`none` is a panic). -/
def stitchLoop [DecidableEq S] :
    List Nat →
    List (((SippState S C × C) × Nat) × Solution S A C) →
    Solution S A C → List (SippState S C × C) → List A →
    Option (List (SippState S C × C) × List A)
  | [], _, _, steps, acts => some (steps, acts)
  | landmark :: rest, parts, current_part, steps, acts =>
    let steps := steps ++ current_part.steps.reverse
    let acts := acts ++ current_part.actions.reverse
    if landmark > 0 then
      match steps.getLast? with
      | none => none
      | some last =>
        match mapRemove (last, landmark - 1) parts with
        | (none, _) => none
        | (some part, parts') => stitchLoop rest parts' part steps.dropLast acts
    else
      stitchLoop rest parts
        { current_part with steps := [], actions := [] } steps acts

/-- `get_solution` (`lsipp.rs`, lines 209-246): `None` when the final
segment produced no solutions; otherwise stitch the parts together
backwards starting from the first final solution and reverse the result
(the result's cost is the first final solution's cost). -/
def get_solution [DecidableEq S] (k : Nat)
    (st : SafeIntervalPathPlanningWithLandmarks S A C) :
    Option (Option (Solution S A C)) :=
  match st.solutions with
  | [] => some none
  | first :: _ =>
    (stitchLoop ((List.range (k + 1)).reverse) st.solution_parts first
        [] []).map
      (fun sa =>
        some ⟨sa.1.reverse, sa.2.reverse, first.cost⟩)

/-- The landmark-dependent part of `solve` (`lsipp.rs`, lines 94-109): the
landmark-free branch is a single SIPP call; otherwise run the three
segment phases from a freshly `init`-ed state and stitch. -/
def solve_core [DecidableEq S] (oracle : SippOracle S A C) (k : Nat) :
    Option (Option (Solution S A C)) :=
  if k = 0 then some oracle.solveSingle
  else
    (to_first_landmark oracle ⟨[], [], [], []⟩).bind fun st1 =>
      (between_landmarks oracle k st1).bind fun st2 =>
        get_solution k (to_goal oracle k st2)

/-- `solve` (`lsipp.rs`, lines 88-119): the candidate solution of
`solve_core`, filtered by the final check that the last step's safe
interval extends to `max_value` (its `unwrap` embedded in the `Option`
monad, `none` being a panic). -/
def solve [DecidableEq S] (oracle : SippOracle S A C) (k : Nat) :
    Option (Option (Solution S A C)) :=
  (solve_core oracle k).bind fun solution =>
    match solution with
    | none => some none
    | some sol =>
      match sol.steps.getLast? with
      | none => none
      | some last =>
        some (if last.1.safe_interval.end_ ≠ max_value then none
          else some sol)

/-- The run state of `lsipp.rs`'s pipeline just before segment `j ≥ 1` is
solved: the first segment done, then the between-landmark loop for
`i = 1 .. j-1`. -/
def state_before_segment [DecidableEq S] (oracle : SippOracle S A C)
    (j : Nat) : Option (SafeIntervalPathPlanningWithLandmarks S A C) :=
  (to_first_landmark oracle ⟨[], [], [], []⟩).bind fun st1 =>
    (List.range' 1 (j - 1)).foldlM (between_landmarks_step oracle) st1

/-- A run state with no pending solutions and no landing states or times:
once a segment comes back empty the pipeline stays in such a state. -/
def IsDead (st : SafeIntervalPathPlanningWithLandmarks S A C) : Prop :=
  st.solutions = [] ∧ st.landmark_states = [] ∧ st.landmark_times = []

theorem store_solution_parts_nil [DecidableEq S] (landmark : Nat)
    (st : SafeIntervalPathPlanningWithLandmarks S A C)
    (h : st.solutions = []) :
    store_solution_parts landmark st = some { st with solutions := [] } := by
  unfold store_solution_parts
  rw [h]
  rfl

theorem between_landmarks_step_dead [DecidableEq S]
    {oracle : SippOracle S A C} (hwf : oracle.WF)
    {st : SafeIntervalPathPlanningWithLandmarks S A C} (hd : IsDead st)
    (i : Nat) :
    between_landmarks_step oracle st i = some st := by
  obtain ⟨sols, parts, lss, lts⟩ := st
  obtain ⟨hs, hls, hlt⟩ := hd
  dsimp only at hs hls hlt
  subst hs
  subst hls
  subst hlt
  show store_solution_parts i
    ⟨oracle.nextSegment i [] [], parts, [], []⟩ = some ⟨[], parts, [], []⟩
  rw [hwf.2.2 i]
  rfl

theorem foldlM_step_dead [DecidableEq S] {oracle : SippOracle S A C}
    (hwf : oracle.WF)
    {st : SafeIntervalPathPlanningWithLandmarks S A C} (hd : IsDead st)
    (l : List Nat) :
    l.foldlM (between_landmarks_step oracle) st = some st := by
  induction l with
  | nil => rfl
  | cons i rest ih =>
    rw [List.foldlM_cons, between_landmarks_step_dead hwf hd i]
    simpa using ih

theorem get_solution_to_goal_dead [DecidableEq S] {oracle : SippOracle S A C}
    (hwf : oracle.WF)
    {st : SafeIntervalPathPlanningWithLandmarks S A C} (hd : IsDead st)
    (k : Nat) :
    get_solution k (to_goal oracle k st) = some none := by
  obtain ⟨_, hls, hlt⟩ := hd
  unfold to_goal
  rw [hls, hlt, hwf.2.2 k]
  rfl

/-- C3: `solve` returns `None` whenever any SIPP segment comes back with no
solutions — the landmark-free single call (1), the segment to the first
landmark (2), and any between-landmark or final segment (3) — and, for a
candidate solution assembled by `get_solution` (or by the single SIPP call),
returns `None` when its last SIPP state's safe interval does not reach
`max_value` and the stitched candidate itself otherwise (4). -/
theorem lsipp_solve_failure_modes {S A C : Type} [LinearOrder C]
    [LimitValues C] [DecidableEq S]
    (oracle : SippOracle S A C) (k : Nat) (hwf : oracle.WF) :
    (k = 0 → oracle.solveSingle = none → solve oracle k = some none) ∧
    (k ≠ 0 → (oracle.firstSegment = none ∨ oracle.firstSegment = some []) →
      solve oracle k = some none) ∧
    (∀ j st, 1 ≤ j → j ≤ k → state_before_segment oracle j = some st →
      oracle.nextSegment j st.landmark_times st.landmark_states = [] →
      solve oracle k = some none) ∧
    (∀ sol last, solve_core oracle k = some (some sol) →
      sol.steps.getLast? = some last →
      (last.1.safe_interval.end_ ≠ max_value → solve oracle k = some none) ∧
      (last.1.safe_interval.end_ = max_value →
        solve oracle k = some (some sol))) := by
  have hdead0 :
      IsDead (⟨[], [], [], []⟩ :
        SafeIntervalPathPlanningWithLandmarks S A C) := ⟨rfl, rfl, rfl⟩
  refine ⟨?_, ?_, ?_, ?_⟩
  · intro hk hnone
    subst hk
    simp [solve, solve_core, hnone]
  · intro hk hfirst
    have h1 : to_first_landmark oracle
        (⟨[], [], [], []⟩ : SafeIntervalPathPlanningWithLandmarks S A C) =
        some ⟨[], [], [], []⟩ := by
      rcases hfirst with h | h
      · unfold to_first_landmark
        rw [h]
      · unfold to_first_landmark
        rw [h]
        rfl
    have h2 := foldlM_step_dead hwf hdead0 (List.range' 1 (k - 1))
    have h3 := get_solution_to_goal_dead hwf hdead0 k
    simp [solve, solve_core, hk, between_landmarks, h1, h2, h3]
  · intro j st h1j hjk hst hempty
    have hk : k ≠ 0 := by omega
    unfold state_before_segment at hst
    obtain ⟨st1, hfirst, hfold⟩ := Option.bind_eq_some.mp hst
    have hstep : between_landmarks_step oracle st j =
        some ⟨[], st.solution_parts, [], []⟩ := by
      unfold between_landmarks_step
      rw [hempty]
      rfl
    have hdeadD :
        IsDead (⟨[], st.solution_parts, [], []⟩ :
          SafeIntervalPathPlanningWithLandmarks S A C) := ⟨rfl, rfl, rfl⟩
    by_cases hjlt : j < k
    · have e1 : 1 + 1 * (j - 1) = j := by omega
      have e2 : k - j + (j - 1) = k - 1 := by omega
      have e3 : k - j = k - 1 - j + 1 := by omega
      have hsplit : List.range' 1 (j - 1) ++
          j :: List.range' (j + 1) (k - 1 - j) = List.range' 1 (k - 1) := by
        have h := List.range'_append 1 (j - 1) (k - j) 1
        rw [e1, e2] at h
        rw [← h, e3, List.range'_succ]
      have hbet : between_landmarks oracle k st1 =
          some ⟨[], st.solution_parts, [], []⟩ := by
        unfold between_landmarks
        rw [← hsplit, List.foldlM_append, hfold]
        simp [List.foldlM_cons, hstep, foldlM_step_dead hwf hdeadD]
      have hgs := get_solution_to_goal_dead hwf hdeadD k
      simp [solve, solve_core, hk, hfirst, hbet, hgs]
    · have hjeq : j = k := by omega
      subst hjeq
      have hbet : between_landmarks oracle j st1 = some st := hfold
      have hgs : get_solution j (to_goal oracle j st) = some none := by
        unfold to_goal
        rw [hempty]
        rfl
      simp [solve, solve_core, hk, hfirst, hbet, hgs]
  · intro sol last hcore hlast
    constructor
    · intro hne
      simp [solve, hcore, hlast, hne]
    · intro heq
      simp [solve, hcore, hlast, heq]

/-- C3 witness: with one landmark and a first segment that finds no
solutions (and later segments faithfully returning nothing from no landing
states), `solve` returns `None`. -/
theorem lsipp_solve_failure_modes_witness :
    solve (⟨none, some [], fun _ _ _ => []⟩ : SippOracle Nat Nat Int) 1 =
      some none := by
  have hwf : (⟨none, some [], fun _ _ _ => []⟩ :
      SippOracle Nat Nat Int).WF := by
    refine ⟨?_, ?_, ?_⟩
    · intro sols h sol hsol
      cases h
      cases hsol
    · intro i t s sol hsol
      cases hsol
    · intro i
      rfl
  exact (lsipp_solve_failure_modes
    (⟨none, some [], fun _ _ _ => []⟩ : SippOracle Nat Nat Int) 1
    hwf).2.1 (by decide) (Or.inr rfl)

end Cbs
